import Mathlib

/-!
Verification development for the blacksmith spot/futures spread-arbitrage
engine.  The Python sources under `src/` are shallowly embedded over exact
rationals: machine floats become `ℚ`, Python's banker-rounding `round`
becomes `pyRound`, fallible code returns `Option`, and the stateful model
classes become explicit state-passing functions.
-/

namespace Blacksmith

/-- Python `round(x)` to an integer: round half to even (banker's rounding). -/
def roundHalfEven (x : ℚ) : ℤ :=
  let f := ⌊x⌋
  let r := x - f
  if r < 1/2 then f
  else if 1/2 < r then f + 1
  else if f % 2 = 0 then f else f + 1

/-- Python `round(x, n)` for `n ≥ 0` decimal digits, over exact rationals. -/
def pyRound (x : ℚ) (n : ℕ) : ℚ :=
  (roundHalfEven (x * 10 ^ n) : ℚ) / 10 ^ n

/-- The decimal precision `OrderManager.adjust_to_step_size` derives from the
step size via `abs(int(f"{step_size:e}".split("e")[-1]))`: the absolute value
of the exponent of `step_size` written in scientific notation, which for a
positive rational is `|⌊log₁₀ step_size⌋|`. -/
def stepPrecision (s : ℚ) : ℕ := (Int.log 10 s).natAbs

/-- `OrderManager.adjust_to_step_size`:
`round(math.floor(quantity / step_size) * step_size, precision)`. -/
def adjust_to_step_size (quantity step_size : ℚ) : ℚ :=
  pyRound ((⌊quantity / step_size⌋ : ℚ) * step_size) (stepPrecision step_size)

lemma roundHalfEven_intCast (m : ℤ) : roundHalfEven (m : ℚ) = m := by
  simp [roundHalfEven]

lemma pyRound_eq_self {x : ℚ} {n : ℕ} (m : ℤ) (hm : x * 10 ^ n = (m : ℚ)) :
    pyRound x n = x := by
  have h10 : ((10 : ℚ) ^ n) ≠ 0 := by positivity
  rw [pyRound, hm, roundHalfEven_intCast, ← hm, mul_div_assoc, div_self h10, mul_one]

lemma int_log_ten_eq {r : ℚ} {z : ℤ} (hr : 0 < r) (h1 : (10 : ℚ) ^ z ≤ r)
    (h2 : r < (10 : ℚ) ^ (z + 1)) : Int.log 10 r = z := by
  have hb : 1 < (10 : ℕ) := by norm_num
  have h1' : ((10 : ℕ) : ℚ) ^ z ≤ r := by exact_mod_cast h1
  have h2' : r < ((10 : ℕ) : ℚ) ^ (z + 1) := by exact_mod_cast h2
  have hle := (Int.zpow_le_iff_le_log hb hr).mp h1'
  have hlt := (Int.lt_zpow_iff_log_lt hb hr).mp h2'
  omega

lemma stepPrecision_zpow (e : ℤ) : stepPrecision ((10 : ℚ) ^ e) = e.natAbs := by
  have h : Int.log 10 ((10 : ℚ) ^ e) = e := by
    have := Int.log_zpow (R := ℚ) (b := 10) (by norm_num) e
    simpa using this
  rw [stepPrecision, h]

lemma floor_mul_zpow_int (q : ℚ) (e : ℤ) :
    ∃ m : ℤ, ((⌊q / (10 : ℚ) ^ e⌋ : ℚ) * (10 : ℚ) ^ e) * 10 ^ e.natAbs = (m : ℚ) := by
  have h0 : (10 : ℚ) ≠ 0 := by norm_num
  have hnn : 0 ≤ e + (e.natAbs : ℤ) := by omega
  refine ⟨⌊q / (10 : ℚ) ^ e⌋ * 10 ^ (e + (e.natAbs : ℤ)).toNat, ?_⟩
  have key : (10 : ℚ) ^ e * (10 : ℚ) ^ (e.natAbs : ℕ) =
      (10 : ℚ) ^ ((e + (e.natAbs : ℤ)).toNat : ℕ) := by
    rw [← zpow_natCast (10 : ℚ) e.natAbs, ← zpow_add₀ h0,
      ← zpow_natCast (10 : ℚ) (e + (e.natAbs : ℤ)).toNat, Int.toNat_of_nonneg hnn]
  rw [mul_assoc, key]
  push_cast
  ring

lemma adjust_zpow_eq (q : ℚ) (e : ℤ) :
    adjust_to_step_size q ((10 : ℚ) ^ e) = (⌊q / (10 : ℚ) ^ e⌋ : ℚ) * (10 : ℚ) ^ e := by
  obtain ⟨m, hm⟩ := floor_mul_zpow_int q e
  rw [adjust_to_step_size, stepPrecision_zpow]
  exact pyRound_eq_self m hm

lemma stepPrecision_centi {s : ℚ} (h1 : (1 : ℚ)/100 ≤ s) (h2 : s < 1/10) :
    stepPrecision s = 2 := by
  have hz : Int.log 10 s = -2 := by
    apply int_log_ten_eq (lt_of_lt_of_le (by norm_num) h1)
    · norm_num
      linarith
    · norm_num
      linarith
  rw [stepPrecision, hz]
  rfl

/-- C3 (amended): for every quantity `q` and every step size that is an integer
power of ten (the venue's actual lot-step form), `adjust_to_step_size q s ≤ q`,
the result is an exact integer multiple of `s`, and the operation is
idempotent. -/
theorem adjust_step_props_pow_ten (q : ℚ) (e : ℤ) :
    adjust_to_step_size q ((10 : ℚ) ^ e) ≤ q ∧
    (∃ k : ℤ, adjust_to_step_size q ((10 : ℚ) ^ e) = (k : ℚ) * (10 : ℚ) ^ e) ∧
    adjust_to_step_size (adjust_to_step_size q ((10 : ℚ) ^ e)) ((10 : ℚ) ^ e) =
      adjust_to_step_size q ((10 : ℚ) ^ e) := by
  have hs : (0 : ℚ) < (10 : ℚ) ^ e := by positivity
  have hs' : ((10 : ℚ) ^ e) ≠ 0 := ne_of_gt hs
  refine ⟨?_, ⟨⌊q / (10 : ℚ) ^ e⌋, adjust_zpow_eq q e⟩, ?_⟩
  · rw [adjust_zpow_eq]
    calc (⌊q / (10 : ℚ) ^ e⌋ : ℚ) * (10 : ℚ) ^ e
        ≤ q / (10 : ℚ) ^ e * (10 : ℚ) ^ e :=
          mul_le_mul_of_nonneg_right (Int.floor_le _) (le_of_lt hs)
      _ = q := div_mul_cancel₀ q hs'
  · rw [adjust_zpow_eq q e, adjust_zpow_eq, mul_div_cancel_right₀ _ hs',
      Int.floor_intCast]

/-- C3 counterexample: for the non-power-of-ten step size 0.025 and quantity
0.026 the result 0.02 is not a multiple of the step and the operation is not
idempotent, and for step 0.035 and quantity 0.0351 the result 0.04 exceeds the
requested quantity. -/
theorem adjust_step_props_cex :
    adjust_to_step_size (26/1000) (25/1000) = 2/100 ∧
    (2 : ℚ)/100 / (25/1000) ≠ ((⌊(2 : ℚ)/100 / (25/1000)⌋ : ℤ) : ℚ) ∧
    adjust_to_step_size (adjust_to_step_size (26/1000) (25/1000)) (25/1000) = 0 ∧
    (0 : ℚ) ≠ adjust_to_step_size (26/1000) (25/1000) ∧
    adjust_to_step_size (351/10000) (35/1000) = 4/100 ∧
    (351 : ℚ)/10000 < 4/100 := by
  have p1 : stepPrecision (25/1000 : ℚ) = 2 :=
    stepPrecision_centi (by norm_num) (by norm_num)
  have p2 : stepPrecision (35/1000 : ℚ) = 2 :=
    stepPrecision_centi (by norm_num) (by norm_num)
  have h1 : adjust_to_step_size (26/1000) (25/1000) = 2/100 := by
    simp only [adjust_to_step_size, p1]
    norm_num [pyRound, roundHalfEven]
  have h2 : adjust_to_step_size (2/100) (25/1000) = 0 := by
    simp only [adjust_to_step_size, p1]
    norm_num [pyRound, roundHalfEven]
  have h3 : adjust_to_step_size (351/10000) (35/1000) = 4/100 := by
    simp only [adjust_to_step_size, p2]
    norm_num [pyRound, roundHalfEven]
  refine ⟨h1, by norm_num, by rw [h1, h2], by rw [h1]; norm_num, h3, by norm_num⟩

/-- C9: adjust_to_step_size returns exactly 0.07 for quantity 0.07 with step
0.01, and exactly 0.07 for quantity 0.073 with step 0.01. -/
theorem adjust_step_scenario :
    adjust_to_step_size (7/100) (1/100) = 7/100 ∧
    adjust_to_step_size (73/1000) (1/100) = 7/100 := by
  have p : stepPrecision (1/100 : ℚ) = 2 :=
    stepPrecision_centi (by norm_num) (by norm_num)
  constructor <;>
    (simp only [adjust_to_step_size, p]; norm_num [pyRound, roundHalfEven])

/-- Position side; the source stores the strings LONG / SHORT. -/
inductive Side
  | LONG
  | SHORT

/-- State of `PositionManager`: the configured fee rate `config.TC`, the side,
entry prices, size and the open flag.  The wall-clock `entry_time` field is
real time; it feeds only the logged holding duration and is not modelled. -/
structure PositionManager where
  TC : ℚ
  side : Option Side
  spot_entry_price : ℚ
  futures_entry_price : ℚ
  size : ℚ
  is_open : Bool

/-- `PositionManager.open`: raises when a position is already open, else
records the entry prices and size and marks the ledger open. -/
def PositionManager.openPos (pm : PositionManager) (sd : Side)
    (spot_price futures_price size : ℚ) : Option PositionManager :=
  if pm.is_open then none
  else some { pm with side := some sd, spot_entry_price := spot_price,
                      futures_entry_price := futures_price, size := size,
                      is_open := true }

/-- `PositionManager.reset`: clear the ledger back to the empty state. -/
def PositionManager.reset (pm : PositionManager) : PositionManager :=
  { pm with side := none, spot_entry_price := 0, futures_entry_price := 0,
            size := 0, is_open := false }

/-- The numeric fields of the result dict built by `PositionManager.close`
(the action/symbol/timestamp strings are not modelled). -/
structure CloseResult where
  side : Side
  size : ℚ
  spot_pnl : ℚ
  futures_pnl : ℚ
  total_net_pnl : ℚ

/-- `PositionManager.close`: raises when nothing is open or the stored side is
invalid; otherwise computes the side-dependent leg PnLs, the fee term
`TC * ((spot_entry + spot_exit + fut_entry + fut_exit) * size)` and the net
PnL, builds the result record (numeric fields rounded exactly as in the
source dict: size to 6 decimals, the PnL values to 4) and resets the ledger. -/
def PositionManager.close (pm : PositionManager)
    (spot_exit_price futures_exit_price : ℚ) :
    Option (CloseResult × PositionManager) :=
  if pm.is_open = false then none
  else
    match pm.side with
    | none => none
    | some sd =>
      let spot_pnl :=
        match sd with
        | .LONG => (spot_exit_price - pm.spot_entry_price) * pm.size
        | .SHORT => (pm.spot_entry_price - spot_exit_price) * pm.size
      let futures_pnl :=
        match sd with
        | .LONG => (pm.futures_entry_price - futures_exit_price) * pm.size
        | .SHORT => (futures_exit_price - pm.futures_entry_price) * pm.size
      let notional := (pm.spot_entry_price + spot_exit_price +
        pm.futures_entry_price + futures_exit_price) * pm.size
      let fees := pm.TC * notional
      let total_net_pnl := spot_pnl + futures_pnl - fees
      some ({ side := sd, size := pyRound pm.size 6,
              spot_pnl := pyRound spot_pnl 4,
              futures_pnl := pyRound futures_pnl 4,
              total_net_pnl := pyRound total_net_pnl 4 }, pm.reset)

/-- `PositionManager.calc_closing_spot_pnl`: raises (`none`) when the position
is closed; the source's `if side == "LONG" ... else ...` treats every
non-LONG side with the SHORT formula. -/
def PositionManager.calc_closing_spot_pnl (pm : PositionManager)
    (exit_spot_price : ℚ) : Option ℚ :=
  if pm.is_open = false then none
  else some (match pm.side with
    | some .LONG => (exit_spot_price - pm.spot_entry_price) * pm.size
    | _ => (pm.spot_entry_price - exit_spot_price) * pm.size)

/-- `PositionManager.calc_closing_futures_pnl`: futures-leg analogue. -/
def PositionManager.calc_closing_futures_pnl (pm : PositionManager)
    (exit_futures_price : ℚ) : Option ℚ :=
  if pm.is_open = false then none
  else some (match pm.side with
    | some .LONG => (pm.futures_entry_price - exit_futures_price) * pm.size
    | _ => (exit_futures_price - pm.futures_entry_price) * pm.size)

/-- `PositionManager.calc_total_pnl`: sum of the two leg PnLs; the
`ValueError` the helpers raise when nothing is open propagates as `none`. -/
def PositionManager.calc_total_pnl (pm : PositionManager)
    (exit_spot_price exit_futures_price : ℚ) : Option ℚ := do
  let spot_pnl ← pm.calc_closing_spot_pnl exit_spot_price
  let futures_pnl ← pm.calc_closing_futures_pnl exit_futures_price
  pure (spot_pnl + futures_pnl)

/-- The end-to-end scenario-3 ledger: open LONG at (spot 100, fut 100.5),
size 1, fee rate 0. -/
def closeScenario : PositionManager :=
  { TC := 0, side := some Side.LONG, spot_entry_price := 100,
    futures_entry_price := 201/2, size := 1, is_open := true }

/-- C2: for every open position `close` computes
spot_pnl = (spot_exit − spot_entry)·size, futures_pnl = (fut_entry − fut_exit)·size
(side-mirrored for SHORT) and net = spot_pnl + futures_pnl −
fee_rate·(spot_entry + spot_exit + fut_entry + fut_exit)·size, the record
fields being these values rounded to 4 decimals for the log; in the LONG
scenario entry (100, 100.5), size 1, exit (101, 100), fee rate 0, the
returned net PnL is exactly +1.5. -/
theorem close_pnl_formula :
    (∀ (pm : PositionManager) (se fe : ℚ), pm.is_open = true →
      pm.side = some Side.LONG →
      pm.close se fe = some (⟨Side.LONG, pyRound pm.size 6,
        pyRound ((se - pm.spot_entry_price) * pm.size) 4,
        pyRound ((pm.futures_entry_price - fe) * pm.size) 4,
        pyRound ((se - pm.spot_entry_price) * pm.size +
          (pm.futures_entry_price - fe) * pm.size -
          pm.TC * (pm.spot_entry_price + se + pm.futures_entry_price + fe) *
            pm.size) 4⟩, pm.reset)) ∧
    (∀ (pm : PositionManager) (se fe : ℚ), pm.is_open = true →
      pm.side = some Side.SHORT →
      pm.close se fe = some (⟨Side.SHORT, pyRound pm.size 6,
        pyRound ((pm.spot_entry_price - se) * pm.size) 4,
        pyRound ((fe - pm.futures_entry_price) * pm.size) 4,
        pyRound ((pm.spot_entry_price - se) * pm.size +
          (fe - pm.futures_entry_price) * pm.size -
          pm.TC * (pm.spot_entry_price + se + pm.futures_entry_price + fe) *
            pm.size) 4⟩, pm.reset)) ∧
    (closeScenario.close 101 100).map (fun r => r.1.total_net_pnl) =
      some (3/2) := by
  refine ⟨?_, ?_, ?_⟩
  · intro pm se fe ho hs
    have ha : pm.TC * ((pm.spot_entry_price + se + pm.futures_entry_price + fe) *
        pm.size) = pm.TC * (pm.spot_entry_price + se + pm.futures_entry_price + fe) *
        pm.size := by ring
    simp [PositionManager.close, ho, hs, ha]
  · intro pm se fe ho hs
    have ha : pm.TC * ((pm.spot_entry_price + se + pm.futures_entry_price + fe) *
        pm.size) = pm.TC * (pm.spot_entry_price + se + pm.futures_entry_price + fe) *
        pm.size := by ring
    simp [PositionManager.close, ho, hs, ha]
  · simp [PositionManager.close, closeScenario]
    norm_num [pyRound, roundHalfEven]

/-- Witness for C2 at the scenario-3 ledger. -/
theorem close_pnl_formula_witness :
    closeScenario.is_open = true ∧ closeScenario.side = some Side.LONG ∧
    closeScenario.close 101 100 = some (⟨Side.LONG, pyRound 1 6,
      pyRound ((101 - 100) * 1) 4, pyRound ((201/2 - 100) * 1) 4,
      pyRound ((101 - 100) * 1 + (201/2 - 100) * 1 -
        0 * (100 + 101 + 201/2 + 100) * 1) 4⟩, closeScenario.reset) :=
  ⟨rfl, rfl, close_pnl_formula.1 closeScenario 101 100 rfl rfl⟩

/-- An open LONG ledger with the configured fee rate `TC = 0.0008`,
entries (100, 100.5) and size 1. -/
def pmFeeScenario : PositionManager :=
  { TC := 8/10000, side := some Side.LONG, spot_entry_price := 100,
    futures_entry_price := 201/2, size := 1, is_open := true }

/-- C5 counterexample: for the open LONG ledger with fee rate 0.0008 and exit
prices (101, 100), `calc_total_pnl` returns the gross leg sum 1.5, while the
net-PnL formula used by `close` yields 1.1788 — `calc_total_pnl` does not
subtract the fees term. -/
theorem calc_total_pnl_no_fees_cex :
    pmFeeScenario.calc_total_pnl 101 100 = some (3/2) ∧
    (pmFeeScenario.close 101 100).map (fun r => r.1.total_net_pnl) =
      some (11788/10000) ∧
    (3/2 : ℚ) ≠ 11788/10000 := by
  refine ⟨?_, ?_, by norm_num⟩
  · simp [PositionManager.calc_total_pnl, PositionManager.calc_closing_spot_pnl,
      PositionManager.calc_closing_futures_pnl, pmFeeScenario]
    norm_num
  · simp [PositionManager.close, pmFeeScenario]
    norm_num [pyRound, roundHalfEven]

/-- C5 (amended): whenever `close` succeeds, `calc_total_pnl` at the same exit
prices returns the same side-dependent leg-PnL sum `close` uses but WITHOUT
the fees term: subtracting the fees and rounding recovers `close`'s net PnL. -/
theorem calc_total_pnl_gross_of_close :
    ∀ (pm : PositionManager) (se fe : ℚ) (r : CloseResult)
      (pm' : PositionManager), pm.close se fe = some (r, pm') →
      (pm.calc_total_pnl se fe).map (fun g =>
        pyRound (g - pm.TC * ((pm.spot_entry_price + se +
          pm.futures_entry_price + fe) * pm.size)) 4) =
        some r.total_net_pnl := by
  intro pm se fe r pm' h
  by_cases ho : pm.is_open = false
  · simp [PositionManager.close, ho] at h
  · have ho' : pm.is_open = true := by
      cases hb : pm.is_open
      · exact absurd hb ho
      · rfl
    cases hs : pm.side with
    | none => simp [PositionManager.close, ho', hs] at h
    | some sd =>
      cases sd with
      | LONG =>
        simp [PositionManager.close, ho', hs] at h
        simp [PositionManager.calc_total_pnl,
          PositionManager.calc_closing_spot_pnl,
          PositionManager.calc_closing_futures_pnl, ho', hs, ← h.1]
      | SHORT =>
        simp [PositionManager.close, ho', hs] at h
        simp [PositionManager.calc_total_pnl,
          PositionManager.calc_closing_spot_pnl,
          PositionManager.calc_closing_futures_pnl, ho', hs, ← h.1]

/-- Witness for C5 (amended) at the fee-scenario ledger. -/
theorem calc_total_pnl_gross_of_close_witness :
    (pmFeeScenario.calc_total_pnl 101 100).map (fun g =>
      pyRound (g - pmFeeScenario.TC * ((pmFeeScenario.spot_entry_price + 101 +
        pmFeeScenario.futures_entry_price + 100) * pmFeeScenario.size)) 4) =
      some ((11788 : ℚ)/10000) := by
  have hc : pmFeeScenario.close 101 100 =
      some (⟨Side.LONG, 1, 1, 1/2, 11788/10000⟩, pmFeeScenario.reset) := by
    simp [PositionManager.close, pmFeeScenario]
    norm_num [pyRound, roundHalfEven]
  have hmain := calc_total_pnl_gross_of_close pmFeeScenario 101 100 _ _ hc
  simpa using hmain

/-- C6 counterexample: on a ledger with no open position, `calc_total_pnl`
propagates the helpers' `ValueError` (`none`) instead of returning 0. -/
theorem calc_total_pnl_closed_raises_cex :
    PositionManager.calc_total_pnl
      ⟨8/10000, none, 0, 0, 0, false⟩ 10 10 = none ∧
    (none : Option ℚ) ≠ some 0 := by
  constructor
  · simp [PositionManager.calc_total_pnl, PositionManager.calc_closing_spot_pnl]
  · simp

/-- C6 (amended): for every ledger with no open position and all price
arguments, `calc_total_pnl` fails (raises `ValueError` via
`calc_closing_spot_pnl`) rather than returning any value. -/
theorem calc_total_pnl_closed_none :
    ∀ (pm : PositionManager) (se fe : ℚ), pm.is_open = false →
      pm.calc_total_pnl se fe = none := by
  intro pm se fe h
  simp [PositionManager.calc_total_pnl, PositionManager.calc_closing_spot_pnl, h]

/-- Witness for C6 (amended) on a freshly-constructed ledger. -/
theorem calc_total_pnl_closed_none_witness :
    ((⟨0, none, 0, 0, 0, false⟩ : PositionManager).is_open = false) ∧
    PositionManager.calc_total_pnl ⟨0, none, 0, 0, 0, false⟩ 1 2 = none :=
  ⟨rfl, calc_total_pnl_closed_none _ 1 2 rfl⟩

/-- `check_signal` from `spread_model.py`: the stateless signal kernel of the
classical model, given the current z-score, the thresholds, the remembered
entry direction and the short-permission flag. -/
def check_signal (z entry_z exit_z : ℚ) (last_signal : ℤ)
    (allow_short : Bool) : ℤ :=
  if last_signal = 1 ∧ exit_z ≤ z then 0
  else if last_signal = -1 ∧ z ≤ -exit_z then 0
  else if |z| < exit_z then 0
  else if entry_z < z ∧ allow_short = true then -1
  else if z < -entry_z then 1
  else 2

/-- The signal-state step of `SpreadModel.get_signal`, at the level of the
computed z-score (the model computes z from the rolling window via
`compute_stats` and `compute_zscore`): it calls `check_signal` with the
stored `entry_signal` and overwrites `entry_signal` only when the returned
signal is an entry (±1); an EXIT return leaves it untouched. -/
def spreadModelSignalStep (entry_z exit_z : ℚ) (allow_short : Bool)
    (entry_signal : ℤ) (z : ℚ) : ℤ × ℤ :=
  let signal := check_signal z entry_z exit_z entry_signal allow_short
  if signal = -1 ∨ signal = 1 then (signal, signal) else (signal, entry_signal)

/-- Kalman `compute_signal` from `kalman_filter.py`: returns the signal and
the new `last_entry`; note that every 0-return resets `last_entry` to 0,
including the hold branch `|z| < exit_z`. -/
def compute_signal (z entry_z exit_z : ℚ) (allow_short : Bool)
    (last_entry : ℤ) : ℤ × ℤ :=
  if last_entry = 1 ∧ exit_z ≤ z then (0, 0)
  else if last_entry = -1 ∧ z ≤ -exit_z then (0, 0)
  else if |z| < exit_z then (0, 0)
  else if entry_z < z ∧ allow_short = true then (-1, -1)
  else if z < -entry_z then (1, 1)
  else (2, last_entry)

/-- Signal trace of successive `SpreadModel.get_signal` calls, given the
sequence of computed z-scores. -/
def runClassicalSignals (entry_z exit_z : ℚ) (allow_short : Bool) :
    ℤ → List ℚ → List ℤ
  | _, [] => []
  | st, z :: zs =>
    let p := spreadModelSignalStep entry_z exit_z allow_short st z
    p.1 :: runClassicalSignals entry_z exit_z allow_short p.2 zs

/-- Signal trace of successive `KalmanSpreadModel.get_signal` calls, given
the sequence of computed z-scores. -/
def runKalmanSignals (entry_z exit_z : ℚ) (allow_short : Bool) :
    ℤ → List ℚ → List ℤ
  | _, [] => []
  | st, z :: zs =>
    let p := compute_signal z entry_z exit_z allow_short st
    p.1 :: runKalmanSignals entry_z exit_z allow_short p.2 zs

/-- C1 counterexample: with the classical model's default thresholds
(entry 1.5, exit 0.5), stored direction +1 and computed z = 1 ≥ exit_z,
`get_signal` returns 0 but the stored direction stays +1 — it is not
cleared to 0. -/
theorem classical_exit_keeps_direction_cex :
    (spreadModelSignalStep (3/2) (1/2) false 1 1).1 = 0 ∧
    (spreadModelSignalStep (3/2) (1/2) false 1 1).2 = 1 ∧
    (1 : ℤ) ≠ 0 := by
  refine ⟨?_, ?_, by norm_num⟩ <;>
    norm_num [spreadModelSignalStep, check_signal]

/-- C1 (amended): for the classical SpreadModel, whenever the stored
direction is +1 and the computed z satisfies z ≥ exit_z, `get_signal`
returns 0 (EXIT) and the stored direction REMAINS +1 (it is never cleared);
symmetrically, direction −1 with z ≤ −exit_z returns 0 and keeps −1. -/
theorem classical_exit_signal_direction :
    ∀ (entry_z exit_z z : ℚ) (allow_short : Bool),
      (exit_z ≤ z →
        spreadModelSignalStep entry_z exit_z allow_short 1 z = (0, 1)) ∧
      (z ≤ -exit_z →
        spreadModelSignalStep entry_z exit_z allow_short (-1) z = (0, -1)) := by
  intro e x z a
  constructor
  · intro h
    simp [spreadModelSignalStep, check_signal, h]
  · intro h
    simp [spreadModelSignalStep, check_signal, h]

/-- Witness for C1 (amended) at the default thresholds. -/
theorem classical_exit_signal_direction_witness :
    ((1 : ℚ)/2 ≤ 1 ∧
      spreadModelSignalStep (3/2) (1/2) false 1 1 = (0, 1)) ∧
    ((-1 : ℚ) ≤ -(1/2) ∧
      spreadModelSignalStep (3/2) (1/2) false (-1) (-1) = (0, -1)) :=
  ⟨⟨by norm_num,
      (classical_exit_signal_direction (3/2) (1/2) 1 false).1 (by norm_num)⟩,
    ⟨by norm_num,
      (classical_exit_signal_direction (3/2) (1/2) (-1) false).2 (by norm_num)⟩⟩

lemma check_signal_one_ne_neg_one {e x z : ℚ} {a : Bool} (_hx : 0 < x)
    (he : 0 ≤ e) : check_signal z e x 1 a ≠ -1 := by
  unfold check_signal
  split_ifs with h1 h2 h3 h4 h5 <;> try norm_num
  rcases h4 with ⟨hez, _⟩
  have hzx : ¬ (x ≤ z) := fun hc => h1 ⟨rfl, hc⟩
  have habs : x ≤ |z| := le_of_not_lt h3
  rcases le_abs.mp habs with hle | hle <;> linarith

lemma compute_signal_one_ne_neg_one {e x z : ℚ} {a : Bool} (_hx : 0 < x)
    (he : 0 ≤ e) : (compute_signal z e x a 1).1 ≠ -1 := by
  unfold compute_signal
  split_ifs with h1 h2 h3 h4 h5 <;> try norm_num
  rcases h4 with ⟨hez, _⟩
  have hzx : ¬ (x ≤ z) := fun hc => h1 ⟨rfl, hc⟩
  have habs : x ≤ |z| := le_of_not_lt h3
  rcases le_abs.mp habs with hle | hle <;> linarith

lemma spreadModelSignalStep_state_one {e x z : ℚ} {a : Bool} (hx : 0 < x)
    (he : 0 ≤ e) : (spreadModelSignalStep e x a 1 z).2 = 1 := by
  unfold spreadModelSignalStep
  have hne := check_signal_one_ne_neg_one (z := z) (a := a) hx he
  rcases eq_or_ne (check_signal z e x 1 a) 1 with h1 | h1
  · simp [h1]
  · simp [h1, hne]

lemma spreadModelSignalStep_fst {e x z : ℚ} {a : Bool} {st : ℤ} :
    (spreadModelSignalStep e x a st z).1 = check_signal z e x st a := by
  unfold spreadModelSignalStep
  by_cases h : check_signal z e x st a = -1 ∨ check_signal z e x st a = 1 <;>
    simp [h]

lemma runClassicalSignals_from_one {e x : ℚ} {a : Bool} (hx : 0 < x)
    (he : 0 ≤ e) : ∀ (zs : List ℚ),
    ∀ s ∈ runClassicalSignals e x a 1 zs, s ≠ -1 := by
  intro zs
  induction zs with
  | nil => intro s hs; simp [runClassicalSignals] at hs
  | cons z zs ih =>
    intro s hs
    rw [runClassicalSignals, spreadModelSignalStep_state_one hx he] at hs
    rcases List.mem_cons.mp hs with h | h
    · rw [h, spreadModelSignalStep_fst]
      exact check_signal_one_ne_neg_one hx he
    · exact ih s h

/-- C7 counterexample: Kalman model, thresholds entry 1.5 / exit 0.5, shorts
allowed.  The z sequence −2, 0, 2 produces signals 1, 0, −1: ENTER_LONG is
followed by ENTER_SHORT although no EXIT at z ≥ exit_z ever fired — the
middle 0 is a hold emitted at |z| = 0 < exit_z, which nevertheless clears
the stored direction. -/
theorem hysteresis_cex :
    runKalmanSignals (3/2) (1/2) true 0 [-2, 0, 2] = [1, 0, -1] ∧
    |(0 : ℚ)| < 1/2 := by
  constructor
  · norm_num [runKalmanSignals, compute_signal]
  · norm_num

/-- C7 (amended): while the stored direction is +1 (entered LONG, direction
not yet reset), no call returns ENTER_SHORT: for thresholds with exit_z > 0
and entry_z ≥ 0, `check_signal` with last_signal = 1 never returns −1, every
signal in a classical trace started from direction +1 differs from −1 (the
classical model never clears the direction, so ENTER_SHORT never fires after
a LONG entry), and the Kalman step from last_entry = 1 never returns −1
(though any 0-return, including in-band holds, resets its direction). -/
theorem hysteresis_no_short_while_long :
    (∀ (entry_z exit_z z : ℚ) (a : Bool), 0 < exit_z → 0 ≤ entry_z →
      check_signal z entry_z exit_z 1 a ≠ -1) ∧
    (∀ (entry_z exit_z : ℚ) (a : Bool) (zs : List ℚ), 0 < exit_z →
      0 ≤ entry_z → ∀ s ∈ runClassicalSignals entry_z exit_z a 1 zs,
        s ≠ -1) ∧
    (∀ (entry_z exit_z z : ℚ) (a : Bool), 0 < exit_z → 0 ≤ entry_z →
      (compute_signal z entry_z exit_z a 1).1 ≠ -1) :=
  ⟨fun _ _ _ _ hx he => check_signal_one_ne_neg_one hx he,
    fun _ _ _ zs hx he => runClassicalSignals_from_one hx he zs,
    fun _ _ _ _ hx he => compute_signal_one_ne_neg_one hx he⟩

/-- Witness for C7 (amended) at the default thresholds. -/
theorem hysteresis_no_short_while_long_witness :
    ((0 : ℚ) < 1/2 ∧ (0 : ℚ) ≤ 3/2 ∧
      (0 : ℤ) ∈ runClassicalSignals (3/2) (1/2) true 1 [2]) ∧
    check_signal 2 (3/2) (1/2) 1 true ≠ -1 ∧
    (0 : ℤ) ≠ -1 ∧
    (compute_signal 2 (3/2) (1/2) true 1).1 ≠ -1 :=
  ⟨⟨by norm_num, by norm_num,
      by norm_num [runClassicalSignals, spreadModelSignalStep, check_signal]⟩,
    hysteresis_no_short_while_long.1 (3/2) (1/2) 2 true (by norm_num)
      (by norm_num),
    hysteresis_no_short_while_long.2.1 (3/2) (1/2) true [2] (by norm_num)
      (by norm_num) 0
      (by norm_num [runClassicalSignals, spreadModelSignalStep, check_signal]),
    hysteresis_no_short_while_long.2.2 (3/2) (1/2) 2 true (by norm_num)
      (by norm_num)⟩

/-- `kf_update` from `kalman_filter.py`: one scalar Kalman step with predict
variance `P_pred = P_prev + q`, gain `K = P_pred / (P_pred + r)` and
posterior variance `P_new = (1 − K)·P_pred`. -/
def kf_update (y mu_prev P_prev q r : ℚ) : ℚ × ℚ :=
  let mu_pred := mu_prev
  let P_pred := P_prev + q
  let K := P_pred / (P_pred + r)
  let mu_new := mu_pred + K * (y - mu_pred)
  let P_new := (1 - K) * P_pred
  (mu_new, P_new)

/-- State of `KalmanSpreadModel` relevant to the filter: the configured
noise parameters and the running estimate.  The thresholds drive only
`compute_signal`, modelled separately. -/
structure KalmanSpreadModel where
  q_base : ℚ
  beta : ℚ
  r : ℚ
  mu : ℚ
  P : ℚ
  ready_flag : Bool

/-- `KalmanSpreadModel.__init__`: mu = 0, P = 1, not ready. -/
def KalmanSpreadModel.init (q_base beta r : ℚ) : KalmanSpreadModel :=
  { q_base := q_base, beta := beta, r := r, mu := 0, P := 1,
    ready_flag := false }

/-- `KalmanSpreadModel.update`: the first call initialises mu = y = spot−fut,
P = 1e-8 and latches ready; later calls run the adaptive-q Kalman step with
q_t = q_base + beta·|y − mu|.  (The symbol-specific debug print is I/O
only.) -/
def KalmanSpreadModel.update (m : KalmanSpreadModel) (spot fut : ℚ) :
    KalmanSpreadModel :=
  let y := spot - fut
  if m.ready_flag = false then
    { m with mu := y, P := 1/10^8, ready_flag := true }
  else
    let residual := y - m.mu
    let q_t := m.q_base + m.beta * |residual|
    let p := kf_update y m.mu m.P q_t m.r
    { m with mu := p.1, P := p.2 }

lemma kf_update_P_pos {y mu P q r : ℚ} (hpq : 0 < P + q) (hr : 0 < r) :
    0 < (kf_update y mu P q r).2 := by
  show 0 < (1 - (P + q) / (P + q + r)) * (P + q)
  have hsum : 0 < P + q + r := by linarith
  have h1 : 1 - (P + q) / (P + q + r) = r / (P + q + r) := by
    field_simp
  rw [h1]
  exact mul_pos (div_pos hr hsum) hpq

lemma update_P_pos {m : KalmanSpreadModel} {spot fut : ℚ} (hr : 0 < m.r)
    (hq : 0 ≤ m.q_base) (hb : 0 ≤ m.beta) (hP : 0 < m.P) :
    0 < (m.update spot fut).P := by
  unfold KalmanSpreadModel.update
  by_cases hready : m.ready_flag = false
  · simp [hready]
  · simp [hready]
    apply kf_update_P_pos _ hr
    have habs : 0 ≤ m.beta * |spot - fut - m.mu| := by positivity
    linarith

lemma update_params (m : KalmanSpreadModel) (spot fut : ℚ) :
    (m.update spot fut).q_base = m.q_base ∧
    (m.update spot fut).beta = m.beta ∧ (m.update spot fut).r = m.r := by
  unfold KalmanSpreadModel.update
  by_cases hready : m.ready_flag = false <;> simp [hready]

lemma foldl_update_P_pos :
    ∀ (ps : List (ℚ × ℚ)) (m : KalmanSpreadModel), 0 < m.r → 0 ≤ m.q_base →
      0 ≤ m.beta → 0 < m.P →
      0 < (ps.foldl (fun acc p => acc.update p.1 p.2) m).P
  | [], _, _, _, _, hP => hP
  | p :: ps, m, hr, hq, hb, hP => by
    rw [List.foldl_cons]
    obtain ⟨h1, h2, h3⟩ := update_params m p.1 p.2
    exact foldl_update_P_pos ps _ (h3 ▸ hr) (h1 ▸ hq) (h2 ▸ hb)
      (update_P_pos hr hq hb hP)

/-- C10: the Kalman variance estimate stays strictly positive: the first
`update` call sets P = 1e-8 and latches ready; with observation noise r > 0
and nonnegative q_base and beta each later step keeps P > 0; hence along any
update sequence from the initial state (P = 1) the stored P never reaches 0,
so `get_signal`'s division by √P never divides by zero once ready. -/
theorem kalman_variance_positive :
    (∀ (m : KalmanSpreadModel) (spot fut : ℚ), m.ready_flag = false →
      (m.update spot fut).P = 1/10^8 ∧
      (m.update spot fut).ready_flag = true) ∧
    (∀ (m : KalmanSpreadModel) (spot fut : ℚ), 0 < m.r → 0 ≤ m.q_base →
      0 ≤ m.beta → 0 < m.P → 0 < (m.update spot fut).P) ∧
    (∀ (q_base beta r : ℚ) (ps : List (ℚ × ℚ)), 0 < r → 0 ≤ q_base →
      0 ≤ beta → 0 < (ps.foldl (fun acc p => acc.update p.1 p.2)
        (KalmanSpreadModel.init q_base beta r)).P) := by
  refine ⟨?_, ?_, ?_⟩
  · intro m spot fut h
    unfold KalmanSpreadModel.update
    simp [h]
  · intro m spot fut hr hq hb hP
    exact update_P_pos hr hq hb hP
  · intro q_base beta r ps hr hq hb
    exact foldl_update_P_pos ps _ hr hq hb (by norm_num [KalmanSpreadModel.init])

/-- Witness for C10 at concrete parameters q_base = 0, beta = 0, r = 1. -/
theorem kalman_variance_positive_witness :
    ((KalmanSpreadModel.init 0 0 1).ready_flag = false ∧
      ((KalmanSpreadModel.init 0 0 1).update 5 3).P = 1/10^8 ∧
      ((KalmanSpreadModel.init 0 0 1).update 5 3).ready_flag = true) ∧
    (0 < (KalmanSpreadModel.update ⟨0, 0, 1, 0, 1, true⟩ 5 3).P) ∧
    (0 < ([((1 : ℚ), (2 : ℚ))].foldl (fun acc p => acc.update p.1 p.2)
      (KalmanSpreadModel.init 0 0 1)).P) :=
  ⟨⟨rfl, kalman_variance_positive.1 (KalmanSpreadModel.init 0 0 1) 5 3 rfl⟩,
    kalman_variance_positive.2.1 ⟨0, 0, 1, 0, 1, true⟩ 5 3 (by norm_num)
      (by norm_num) (by norm_num) (by norm_num),
    kalman_variance_positive.2.2 0 0 1 [((1 : ℚ), (2 : ℚ))] (by norm_num)
      (by norm_num) (by norm_num)⟩

/-- One iteration of the reconnect loop in `PriceCache._listen`:
`connectFail` — the connection attempt raises; `streamAbort` — the
connection succeeds and streams, then the iteration dies with an exception
(so the `backoff = 1` reset line after the message loop is skipped);
`normalClose` — the message iterator ends normally, after which the backoff
is reset to 1 and the loop reconnects with no sleep. -/
inductive ConnEvent
  | connectFail
  | streamAbort
  | normalClose
deriving DecidableEq

/-- Effect of one loop iteration on the backoff state: the except branch
sleeps `backoff` seconds then sets `backoff = min(backoff * 2, 32)`; a
normal close emits no delay and resets the backoff to 1. -/
def backoffStep (b : ℕ) : ConnEvent → Option ℕ × ℕ
  | .connectFail => (some b, min (b * 2) 32)
  | .streamAbort => (some b, min (b * 2) 32)
  | .normalClose => (none, 1)

/-- The sleep delays observed along a run of `_listen`, starting from
backoff state `b` (initially 1). -/
def backoffRun : ℕ → List ConnEvent → List ℕ
  | _, [] => []
  | b, e :: evs =>
    match backoffStep b e with
    | (some d, b') => d :: backoffRun b' evs
    | (none, b') => backoffRun b' evs

/-- The backoff state after a run of `_listen` events. -/
def backoffState (b : ℕ) (evs : List ConnEvent) : ℕ :=
  evs.foldl (fun s e => (backoffStep s e).2) b

/-- C8 counterexample: after two failed connects the delays are 1 and 2;
the third connection succeeds and streams, then dies abnormally — the
backoff is NOT reset: the sleep at that abort is 4 and the next reconnect
delay is 8, not the base delay 1 the claim requires after any successful,
sustained connection. -/
theorem backoff_no_reset_on_abort_cex :
    backoffRun 1 [ConnEvent.connectFail, ConnEvent.connectFail,
      ConnEvent.streamAbort, ConnEvent.connectFail] = [1, 2, 4, 8] ∧
    (8 : ℕ) ≠ 1 := by
  constructor
  · rfl
  · norm_num

lemma backoffRun_le : ∀ (evs : List ConnEvent) (b : ℕ), b ≤ 32 →
    ∀ d ∈ backoffRun b evs, d ≤ 32 := by
  intro evs
  induction evs with
  | nil =>
    intro b hb d hd
    simp [backoffRun] at hd
  | cons e evs ih =>
    intro b hb d hd
    cases e with
    | connectFail =>
      simp [backoffRun, backoffStep] at hd
      rcases hd with h | h
      · omega
      · exact ih (min (b * 2) 32) (by omega) d h
    | streamAbort =>
      simp [backoffRun, backoffStep] at hd
      rcases hd with h | h
      · omega
      · exact ih (min (b * 2) 32) (by omega) d h
    | normalClose =>
      simp [backoffRun, backoffStep] at hd
      exact ih 1 (by omega) d hd

lemma backoffRun_lb : ∀ (evs : List ConnEvent) (b : ℕ), b ≤ 32 →
    ConnEvent.normalClose ∉ evs → ∀ d ∈ backoffRun b evs, b ≤ d := by
  intro evs
  induction evs with
  | nil =>
    intro b hb hn d hd
    simp [backoffRun] at hd
  | cons e evs ih =>
    intro b hb hn d hd
    have hn' : ConnEvent.normalClose ∉ evs := fun hc => hn (List.mem_cons_of_mem _ hc)
    cases e with
    | connectFail =>
      simp [backoffRun, backoffStep] at hd
      rcases hd with h | h
      · omega
      · have := ih (min (b * 2) 32) (by omega) hn' d h
        omega
    | streamAbort =>
      simp [backoffRun, backoffStep] at hd
      rcases hd with h | h
      · omega
      · have := ih (min (b * 2) 32) (by omega) hn' d h
        omega
    | normalClose =>
      exact absurd (List.mem_cons_self _ _) hn

lemma backoffRun_pairwise : ∀ (evs : List ConnEvent) (b : ℕ), b ≤ 32 →
    ConnEvent.normalClose ∉ evs →
    List.Pairwise (· ≤ ·) (backoffRun b evs) := by
  intro evs
  induction evs with
  | nil =>
    intro b hb hn
    simp [backoffRun]
  | cons e evs ih =>
    intro b hb hn
    have hn' : ConnEvent.normalClose ∉ evs := fun hc => hn (List.mem_cons_of_mem _ hc)
    cases e with
    | connectFail =>
      simp only [backoffRun, backoffStep]
      refine List.pairwise_cons.mpr ⟨?_, ih (min (b * 2) 32) (by omega) hn'⟩
      intro d hd
      have := backoffRun_lb evs (min (b * 2) 32) (by omega) hn' d hd
      omega
    | streamAbort =>
      simp only [backoffRun, backoffStep]
      refine List.pairwise_cons.mpr ⟨?_, ih (min (b * 2) 32) (by omega) hn'⟩
      intro d hd
      have := backoffRun_lb evs (min (b * 2) 32) (by omega) hn' d hd
      omega
    | normalClose =>
      exact absurd (List.mem_cons_self _ _) hn

/-- C8 (amended): the delays across consecutive reconnect attempts (no
intervening normal close) are non-decreasing and never exceed the cap 32,
and the backoff resets to the base delay 1 after a NORMALLY closed
connection; a successful connection that terminates abnormally does not
reset the backoff. -/
theorem backoff_monotone_capped_reset :
    (∀ (evs : List ConnEvent) (b : ℕ), b ≤ 32 →
      ∀ d ∈ backoffRun b evs, d ≤ 32) ∧
    (∀ (evs : List ConnEvent) (b : ℕ), b ≤ 32 →
      ConnEvent.normalClose ∉ evs →
      List.Pairwise (· ≤ ·) (backoffRun b evs)) ∧
    (∀ (evs : List ConnEvent) (b : ℕ),
      backoffState b (evs ++ [ConnEvent.normalClose]) = 1) := by
  refine ⟨backoffRun_le, backoffRun_pairwise, ?_⟩
  intro evs b
  rw [backoffState, List.foldl_append]
  rfl

/-- Witness for C8 (amended) on a short concrete run. -/
theorem backoff_monotone_capped_reset_witness :
    ((1 : ℕ) ≤ 32 ∧ (1 : ℕ) ∈ backoffRun 1 [ConnEvent.connectFail] ∧
      (1 : ℕ) ≤ 32) ∧
    (ConnEvent.normalClose ∉ [ConnEvent.connectFail] ∧
      List.Pairwise (· ≤ ·) (backoffRun 1 [ConnEvent.connectFail])) ∧
    backoffState 7 ([] ++ [ConnEvent.normalClose]) = 1 :=
  ⟨⟨by norm_num, by simp [backoffRun, backoffStep],
      backoff_monotone_capped_reset.1 [ConnEvent.connectFail] 1 (by norm_num)
        1 (by simp [backoffRun, backoffStep])⟩,
    ⟨by decide,
      backoff_monotone_capped_reset.2.1 [ConnEvent.connectFail] 1
        (by norm_num) (by decide)⟩,
    backoff_monotone_capped_reset.2.2 [] 7⟩

/-- Venue response to one order submission: success, or a
`BinanceAPIException` with the given error code. -/
inductive OrderResp
  | success
  | reject (code : ℤ)

/-- Result of `_safe_order`: the returned boolean and how many orders were
actually submitted to the venue. -/
structure OrderOutcome where
  ok : Bool
  sent : ℕ

/-- The retry loop of `OrderManager._safe_order`, with the venue modelled as
a function from the submission index to its response.  `fuel` is
`max_retries − attempt`.  Each iteration re-adjusts the quantity to the
step size and submits it; a −1013/−4131 filter rejection halves the
quantity and fails without resubmitting if the halved quantity drops below
`min_qty`, otherwise retries; −2022 (reduce-only not satisfiable) is
treated as success; any other code fails immediately. -/
def safeOrderAux (venue : ℕ → OrderResp) (min_qty step_size : ℚ) :
    ℕ → ℕ → ℚ → OrderOutcome
  | 0, sent, _ => ⟨false, sent⟩
  | fuel + 1, sent, qty =>
    let q := adjust_to_step_size qty step_size
    match venue sent with
    | .success => ⟨true, sent + 1⟩
    | .reject c =>
      if c = -1013 ∨ c = -4131 then
        if q / 2 < min_qty then ⟨false, sent + 1⟩
        else safeOrderAux venue min_qty step_size fuel (sent + 1) (q / 2)
      else if c = -2022 then ⟨true, sent + 1⟩
      else ⟨false, sent + 1⟩

/-- `OrderManager._safe_order` with the default retry budget of 3. -/
def safe_order (venue : ℕ → OrderResp) (min_qty step_size qty : ℚ) :
    OrderOutcome :=
  safeOrderAux venue min_qty step_size 3 0 qty

/-- C4 counterexample: requested quantity 0.5, step 0.01, venue minimum
quantity 1.  The step-size-adjusted quantity 0.5 is below the minimum, yet
`_safe_order` submits the order anyway (one order reaches the venue) and
returns success when the venue accepts it — there is no pre-submission
minimum-quantity check. -/
theorem safe_order_no_min_qty_precheck_cex :
    adjust_to_step_size (1/2) (1/100) < 1 ∧
    safe_order (fun _ => OrderResp.success) 1 (1/100) (1/2) =
      ⟨true, 1⟩ := by
  constructor
  · have p : stepPrecision (1/100 : ℚ) = 2 :=
      stepPrecision_centi (by norm_num) (by norm_num)
    simp only [adjust_to_step_size, p]
    norm_num [pyRound, roundHalfEven]
  · rfl

lemma safeOrderAux_sent_mono (venue : ℕ → OrderResp) (mq st : ℚ) :
    ∀ (fuel sent : ℕ) (qty : ℚ),
      sent ≤ (safeOrderAux venue mq st fuel sent qty).sent := by
  intro fuel
  induction fuel with
  | zero =>
    intro sent qty
    simp [safeOrderAux]
  | succ fuel ih =>
    intro sent qty
    rw [safeOrderAux]
    cases hv : venue sent with
    | success => simp
    | reject c =>
      by_cases h1 : c = -1013 ∨ c = -4131
      · by_cases h2 : adjust_to_step_size qty st / 2 < mq
        · simp [h1, h2]
        · simp only [h1, h2, if_true, if_false]
          have := ih (sent + 1) (adjust_to_step_size qty st / 2)
          omega
      · by_cases h3 : c = -2022 <;> simp [h1, h3]

/-- C4 (amended): `_safe_order` performs no pre-submission minimum-quantity
check — the adjusted quantity is always submitted at least once — and the
minimum-quantity check is applied only after a quantity/price-filter
rejection (−1013/−4131): when the halved quantity falls below the minimum
the call fails with no further submission. -/
theorem safe_order_min_qty_post_reject :
    (∀ (venue : ℕ → OrderResp) (min_qty step_size qty : ℚ),
      1 ≤ (safe_order venue min_qty step_size qty).sent) ∧
    (∀ (venue : ℕ → OrderResp) (min_qty step_size qty : ℚ)
      (fuel sent : ℕ) (c : ℤ), venue sent = OrderResp.reject c →
      (c = -1013 ∨ c = -4131) →
      adjust_to_step_size qty step_size / 2 < min_qty →
      safeOrderAux venue min_qty step_size (fuel + 1) sent qty =
        ⟨false, sent + 1⟩) := by
  constructor
  · intro venue mq st qty
    rw [safe_order, safeOrderAux]
    cases hv : venue 0 with
    | success => simp
    | reject c =>
      by_cases h1 : c = -1013 ∨ c = -4131
      · by_cases h2 : adjust_to_step_size qty st / 2 < mq
        · simp [h1, h2]
        · simp only [h1, h2, if_true, if_false]
          exact le_trans (by omega)
            (safeOrderAux_sent_mono venue mq st 2 (0 + 1) _)
      · by_cases h3 : c = -2022 <;> simp [h1, h3]
  · intro venue mq st qty fuel sent c hv hc hlt
    rw [safeOrderAux, hv]
    simp [hc, hlt]

/-- Witness for C4 (amended): a venue that always rejects with the filter
code −1013 while the halved quantity is below the minimum. -/
theorem safe_order_min_qty_post_reject_witness :
    1 ≤ (safe_order (fun _ => OrderResp.success) 1 (1/100) (1/2)).sent ∧
    ((fun _ => OrderResp.reject (-1013) : ℕ → OrderResp) 0 =
      OrderResp.reject (-1013) ∧
     ((-1013 : ℤ) = -1013 ∨ (-1013 : ℤ) = -4131) ∧
     adjust_to_step_size (1/2) (1/100) / 2 < 1 ∧
     safeOrderAux (fun _ => OrderResp.reject (-1013)) 1 (1/100) 3 0 (1/2) =
       ⟨false, 1⟩) := by
  have hadj : adjust_to_step_size (1/2) (1/100) / 2 < 1 := by
    have p : stepPrecision (1/100 : ℚ) = 2 :=
      stepPrecision_centi (by norm_num) (by norm_num)
    simp only [adjust_to_step_size, p]
    norm_num [pyRound, roundHalfEven]
  refine ⟨safe_order_min_qty_post_reject.1 _ 1 (1/100) (1/2),
    rfl, Or.inl rfl, hadj, ?_⟩
  exact safe_order_min_qty_post_reject.2 (fun _ => OrderResp.reject (-1013))
    1 (1/100) (1/2) 2 0 (-1013) rfl (Or.inl rfl) hadj

end Blacksmith
